import Mathlib

/-!
Shallow embedding of the batch/level orchestration engine of
scripts/content_factory.py: vocabulary windowing, legacy-word sampling,
narrative-chapter indexing, context-cache fallback, manifest load /
next-level computation, and the main pipeline loop with its commit and
image-generation ordering.  External services (text generation, cache
creation) are modelled as oracle functions; the random source used by
random.sample is modelled as an injected stream of naturals.
-/

namespace CF

/-- BATCH_SIZE constant from content_factory.py. -/
def BATCH_SIZE : Nat := 10

/-- LEGACY_POOL_SIZE constant from content_factory.py. -/
def LEGACY_POOL_SIZE : Nat := 5

/-- ANCHOR_POOL_SIZE constant from content_factory.py. -/
def ANCHOR_POOL_SIZE : Nat := 100

/-- One parsed branch object of the generated JSON; fields are optional
because the code reads them with dict.get and never validates presence. -/
structure Branch where
  prompt : Option String
  sentences_m : Option (List String)
  sentences_f : Option (List String)
  en_sentences : Option (List String)
  image_prompt : Option String
deriving DecidableEq

/-- The parsed JSON story returned by the text-generation call; the driver
only reads choice_a and choice_b from it (via dict.get). -/
structure Story where
  choice_a : Option Branch
  choice_b : Option Branch
deriving DecidableEq

/-- One chapter record of narrative_bible.json, read with dict.get. -/
structure Chapter where
  location : Option String
  vibe : Option String
  cliffhanger : Option String
deriving DecidableEq

/-- One committed level entry of stories.json, as built in main. -/
structure Entry where
  level : Nat
  target_words : List String
  legacy_words : List String
  choice_a : Option Branch
  choice_b : Option Branch
deriving DecidableEq

/-- get_anchor_words: the first ANCHOR_POOL_SIZE words of the corpus. -/
def get_anchor_words (all_words : List String) : List String :=
  all_words.take ANCHOR_POOL_SIZE

/-- Model of random.sample(pool, count): draws count elements without
replacement, each draw removing the chosen position from the pool.  The
random source is an injected stream rand of naturals; draw t picks
position rand t mod (remaining pool size).  For any stream this yields a
without-replacement selection, which is the shape of the stdlib contract. -/
def random_sample (rand : Nat → Nat) : List String → Nat → Nat → List String
  | _, 0, _ => []
  | pool, count + 1, t =>
      if pool.length = 0 then []
      else
        let j := rand t % pool.length
        pool.getD j "" :: random_sample rand (pool.eraseIdx j) count (t + 1)

/-- get_legacy_words from content_factory.py: empty below BATCH_SIZE,
otherwise a random sample of min(len(pool), LEGACY_POOL_SIZE) words from
all_words[:current_index]. -/
def get_legacy_words (rand : Nat → Nat) (all_words : List String)
    (current_index : Nat) : List String :=
  if current_index < BATCH_SIZE then []
  else
    let pool := all_words.take current_index
    let count := min pool.length LEGACY_POOL_SIZE
    random_sample rand pool count 0

/-- The models_to_try list hardcoded in create_story_cache. -/
def models_to_try : List String := ["gemini-2.5-flash", "gemini-2.0-flash"]

/-- The try-each-model loop of create_story_cache: the cache-creation
service is an oracle from model name to an optional cache name (none
models any exception: network, quota, unsupported model). -/
def tryModels (cacheCreate : String → Option String) :
    List String → Option (String × String)
  | [] => none
  | m :: rest =>
      match cacheCreate m with
      | some cname => some (cname, m)
      | none => tryModels cacheCreate rest

/-- create_story_cache: returns (cache name, model) of the first candidate
that succeeds, or (none, gemini-2.5-flash) after exhausting the list. -/
def create_story_cache (cacheCreate : String → Option String) :
    Option String × String :=
  match tryModels cacheCreate models_to_try with
  | some (cname, m) => (some cname, m)
  | none => (none, "gemini-2.5-flash")

/-- The request assembled by generate_cyoa_content for the generation
service: model, optional cached-content binding, level, combined word
list, and the narrative context fields interpolated into the prompt. -/
structure GenRequest where
  model : String
  cached : Option String
  level : Nat
  words : List String
  location : String
  vibe : String
  destination : String
deriving DecidableEq

/-- Default chapter used only to totalise list indexing; the code indexes
bible_data at positions already reduced mod its length, so for a nonempty
bible the default is never read. -/
def defaultChapter : Chapter := ⟨none, none, none⟩

/-- The context computation and request assembly of generate_cyoa_content:
idx = (level-1) mod len, next_idx = level mod len, with dict.get defaults
Unknown / Normal / Unknown, and words = new_words ++ legacy_words. -/
def mkGenRequest (level : Nat) (new_words legacy_words : List String)
    (cache_name : Option String) (model_name : String)
    (bible_data : List Chapter) : GenRequest :=
  let idx := (level - 1) % bible_data.length
  let next_idx := level % bible_data.length
  let current_chapter := bible_data.getD idx defaultChapter
  let next_chapter := bible_data.getD next_idx defaultChapter
  { model := model_name
    cached := cache_name
    level := level
    words := new_words ++ legacy_words
    location := current_chapter.location.getD "Unknown"
    vibe := current_chapter.vibe.getD "Normal"
    destination := next_chapter.location.getD "Unknown" }

/-- generate_cyoa_content: sends the assembled request to the generation
service (an oracle); none models either branch of the except clause
(transport error or json.loads failure).  Note the code performs no
validation of the parsed story beyond JSON parsing. -/
def generate_cyoa_content (svc : GenRequest → Option Story) (level : Nat)
    (new_words legacy_words : List String) (cache_name : Option String)
    (model_name : String) (bible_data : List Chapter) : Option Story :=
  svc (mkGenRequest level new_words legacy_words cache_name model_name bible_data)

/-- State of the persisted stories.json file as seen by the loader:
missing, existing but unparseable, or parseable with the given entries. -/
inductive FileState where
  | missing
  | corrupt
  | valid (data : List Entry)
deriving DecidableEq

/-- The manifest-loading block of main: current_data starts [], is loaded
when the file exists, and the bare except resets it to [] on any parse
error. -/
def load_current_data : FileState → List Entry
  | FileState.missing => []
  | FileState.corrupt => []
  | FileState.valid d => d

/-- The manifest-loading block of main together with the log lines it
prints: the block (lines 244-248) contains no print statement at all, so
its log output is empty in every case, including the bare except branch
that swallows a corrupt file. -/
def load_current_data_trace : FileState → List Entry × List String
  | FileState.missing => ([], [])
  | FileState.corrupt => ([], [])
  | FileState.valid d => (d, [])

/-- The next_level computation of main: 1, overridden by max(level)+1 for
a nonempty manifest, overridden by start_batch when start_batch > 0. -/
def compute_next_level (current_data : List Entry) (start_batch : Int) : Nat :=
  let nl := if current_data.isEmpty then 1
            else ((current_data.map Entry.level).foldl Nat.max 0) + 1
  if start_batch > 0 then start_batch.toNat else nl

/-- Observable driver events, in program order: the text-generation call
(with the exact request), the full rewrite of stories.json with the given
contents, an image-generation call for one branch of a level, the skip
log line of a failed level, and the fatal missing-bible error. -/
inductive Event where
  | configError
  | genText (req : GenRequest)
  | saveFile (data : List Entry)
  | genImage (level : Nat) (branch : String) (prompt : String)
  | skip (level : Nat)
deriving DecidableEq

/-- The two conditional generate_image calls after a commit: branch A then
branch B, each only when the corresponding choice is present, prompt from
image_prompt with default "magritte scene". -/
def imageEvents (level : Nat) (e : Entry) : List Event :=
  (match e.choice_a with
   | some b => [Event.genImage level "A" (b.image_prompt.getD "magritte scene")]
   | none => []) ++
  (match e.choice_b with
   | some b => [Event.genImage level "B" (b.image_prompt.getD "magritte scene")]
   | none => [])

/-- One run result: the in-memory manifest, the persisted file contents
(none while the loop has not yet written), and the event trace. -/
structure RunResult where
  data : List Entry
  file : Option (List Entry)
  trace : List Event
deriving DecidableEq

/-- The main for-loop of content_factory.py, as a fuel-indexed recursion:
for i in range(i0, len(corpus), BATCH_SIZE), breaking when processed
reaches the limit or the batch slice is empty; on a successful generation
the entry is appended, the whole file rewritten, then the two image calls
are made and next_level/processed advance; on failure only a skip is
logged.  rands supplies the random stream for the legacy sample of each
iteration, keyed by the iteration index i. -/
def mainLoopGo (corpus : List String) (bible : List Chapter)
    (svc : GenRequest → Option Story) (rands : Nat → Nat → Nat)
    (cache_name : Option String) (model_used : String) (limit : Int) :
    Nat → Nat → Nat → Nat → List Entry → Option (List Entry) → List Event →
    RunResult
  | 0, _, _, _, data, file, trace => ⟨data, file, trace⟩
  | fuel + 1, i, next_level, processed, data, file, trace =>
      if i < corpus.length then
        if (processed : Int) ≥ limit then ⟨data, file, trace⟩
        else
          let new_batch := (corpus.drop i).take BATCH_SIZE
          if new_batch.isEmpty then ⟨data, file, trace⟩
          else
            let legacy := get_legacy_words (rands i) corpus i
            let req := mkGenRequest next_level new_batch legacy cache_name
                model_used bible
            match svc req with
            | some st =>
                let entry : Entry :=
                  { level := next_level
                    target_words := new_batch
                    legacy_words := legacy
                    choice_a := st.choice_a
                    choice_b := st.choice_b }
                let data' := data ++ [entry]
                mainLoopGo corpus bible svc rands cache_name model_used limit
                  fuel (i + BATCH_SIZE) (next_level + 1) (processed + 1)
                  data' (some data')
                  (trace ++ [Event.genText req, Event.saveFile data'] ++
                    imageEvents next_level entry)
            | none =>
                mainLoopGo corpus bible svc rands cache_name model_used limit
                  fuel (i + BATCH_SIZE) next_level processed data file
                  (trace ++ [Event.genText req, Event.skip next_level])
      else ⟨data, file, trace⟩

/-- main: guard on an empty narrative bible (print error and return before
any generation), create_story_cache, load stories.json, compute next_level
and start_index = (next_level - 1) * BATCH_SIZE, then run the loop.  Fuel
corpus.length + 1 dominates the iteration count since each iteration
advances i by BATCH_SIZE ≥ 1. -/
def main_run (corpus : List String) (bible : List Chapter)
    (svc : GenRequest → Option Story) (cacheCreate : String → Option String)
    (rands : Nat → Nat → Nat) (limit start_batch : Int)
    (fs : FileState) : RunResult :=
  if bible.isEmpty then ⟨[], none, [Event.configError]⟩
  else
    let cm := create_story_cache cacheCreate
    let current_data := load_current_data fs
    let next_level := compute_next_level current_data start_batch
    let start_index := (next_level - 1) * BATCH_SIZE
    mainLoopGo corpus bible svc rands cm.1 cm.2 limit
      (corpus.length + 1) start_index next_level 0 current_data none []

/-- Spec-side validity of a branch: the three sentence sequences are all
present and of equal length. -/
def branch_lengths_ok (b : Branch) : Bool :=
  match b.sentences_m, b.sentences_f, b.en_sentences with
  | some m, some f, some e => m.length = f.length && f.length = e.length
  | _, _, _ => false

/-- Spec-side validity of a committed entry: both branches present and
length-valid. -/
def entry_valid (e : Entry) : Bool :=
  (e.choice_a.map branch_lengths_ok).getD false &&
  (e.choice_b.map branch_lengths_ok).getD false

/-- Durability ordering property of a trace: every image-generation event
for a level is preceded (strictly earlier in the trace) by a file save
whose contents already include an entry for that level. -/
def savedBeforeImages (tr : List Event) : Prop :=
  ∀ (k : Nat) lvl br p, tr[k]? = some (Event.genImage lvl br p) →
    ∃ (j : Nat) (d : List Entry), j < k ∧ tr[j]? = some (Event.saveFile d) ∧
      ∃ e ∈ d, e.level = lvl

/-! Helper lemmas about the sampling model. -/

theorem random_sample_length (rand : Nat → Nat) :
    ∀ (count : Nat) (pool : List String) (t : Nat), count ≤ pool.length →
      (random_sample rand pool count t).length = count := by
  intro count
  induction count with
  | zero => intro pool t _; simp [random_sample]
  | succ k ih =>
      intro pool t h
      have hp : ¬ pool.length = 0 := by omega
      have hj : rand t % pool.length < pool.length := Nat.mod_lt _ (by omega)
      have hl : (pool.eraseIdx (rand t % pool.length)).length = pool.length - 1 := by
        rw [List.length_eraseIdx]; simp [hj]
      simp only [random_sample, hp, if_false, List.length_cons]
      rw [ih _ _ (by omega)]

theorem random_sample_mem (rand : Nat → Nat) :
    ∀ (count : Nat) (pool : List String) (t : Nat) (w : String),
      w ∈ random_sample rand pool count t → w ∈ pool := by
  intro count
  induction count with
  | zero => intro pool t w hw; simp [random_sample] at hw
  | succ k ih =>
      intro pool t w hw
      by_cases hp : pool.length = 0
      · simp [random_sample, hp] at hw
      · have hj : rand t % pool.length < pool.length := Nat.mod_lt _ (by omega)
        simp only [random_sample, hp, if_false, List.mem_cons] at hw
        rcases hw with hw | hw
        · rw [hw, List.getD_eq_getElem _ _ hj]
          exact List.getElem_mem hj
        · exact (List.eraseIdx_sublist pool _).mem (ih _ _ _ hw)

theorem getD_not_mem_eraseIdx :
    ∀ (l : List String) (j : Nat), j < l.length → l.Nodup →
      l.getD j "" ∉ l.eraseIdx j := by
  intro l
  induction l with
  | nil => intro j hj _; simp at hj
  | cons x xs ih =>
      intro j hj hnd
      rcases List.nodup_cons.mp hnd with ⟨hx, hxs⟩
      cases j with
      | zero => simpa using hx
      | succ j' =>
          have hj' : j' < xs.length := by simpa using hj
          simp only [List.getD_cons_succ, List.eraseIdx_cons_succ, List.mem_cons,
            not_or]
          refine ⟨?_, ih j' hj' hxs⟩
          intro heq
          apply hx
          rw [← heq, List.getD_eq_getElem _ _ hj']
          exact List.getElem_mem hj'

theorem random_sample_nodup (rand : Nat → Nat) :
    ∀ (count : Nat) (pool : List String) (t : Nat), pool.Nodup →
      (random_sample rand pool count t).Nodup := by
  intro count
  induction count with
  | zero => intro pool t _; simp [random_sample]
  | succ k ih =>
      intro pool t hnd
      by_cases hp : pool.length = 0
      · simp [random_sample, hp]
      · have hj : rand t % pool.length < pool.length := Nat.mod_lt _ (by omega)
        simp only [random_sample, hp, if_false, List.nodup_cons]
        refine ⟨?_, ih _ _ ((List.eraseIdx_sublist pool _).nodup hnd)⟩
        intro hmem
        exact getD_not_mem_eraseIdx pool _ hj hnd (random_sample_mem rand _ _ _ _ hmem)

/-! Helper lemmas about get_legacy_words. -/

theorem get_legacy_words_small (rand : Nat → Nat) (corpus : List String)
    (idx : Nat) (h : idx < BATCH_SIZE) :
    get_legacy_words rand corpus idx = [] := by
  simp [get_legacy_words, h]

theorem get_legacy_words_length (rand : Nat → Nat) (corpus : List String)
    (idx : Nat) (h : ¬ idx < BATCH_SIZE) :
    (get_legacy_words rand corpus idx).length =
      min LEGACY_POOL_SIZE (corpus.take idx).length := by
  simp only [get_legacy_words, h, if_false]
  rw [random_sample_length _ _ _ _ (Nat.min_le_left _ _), Nat.min_comm]

theorem get_legacy_words_full (rand : Nat → Nat) (corpus : List String)
    (idx : Nat) (h1 : BATCH_SIZE ≤ idx) (h2 : idx ≤ corpus.length) :
    (get_legacy_words rand corpus idx).length = LEGACY_POOL_SIZE := by
  rw [get_legacy_words_length rand corpus idx (by omega), List.length_take]
  have hb : BATCH_SIZE = 10 := rfl
  have hl : LEGACY_POOL_SIZE = 5 := rfl
  omega

theorem get_legacy_words_mem (rand : Nat → Nat) (corpus : List String)
    (idx : Nat) (w : String) (hw : w ∈ get_legacy_words rand corpus idx) :
    w ∈ corpus.take idx := by
  by_cases h : idx < BATCH_SIZE
  · simp [get_legacy_words, h] at hw
  · simp only [get_legacy_words, h, if_false] at hw
    exact random_sample_mem rand _ _ _ _ hw

theorem get_legacy_words_nodup (rand : Nat → Nat) (corpus : List String)
    (idx : Nat) (hnd : corpus.Nodup) :
    (get_legacy_words rand corpus idx).Nodup := by
  by_cases h : idx < BATCH_SIZE
  · simp [get_legacy_words, h]
  · simp only [get_legacy_words, h, if_false]
    exact random_sample_nodup rand _ _ _ ((List.take_sublist _ _).nodup hnd)

/-! Helper lemmas about the cache fallback chain. -/

theorem tryModels_all_fail (cc : String → Option String) :
    ∀ ms : List String, (∀ m ∈ ms, cc m = none) → tryModels cc ms = none := by
  intro ms
  induction ms with
  | nil => intro _; rfl
  | cons m rest ih =>
      intro h
      simp only [tryModels]
      rw [h m (List.mem_cons_self m rest)]
      exact ih (fun x hx => h x (List.mem_cons_of_mem m hx))

theorem create_story_cache_all_fail (cc : String → Option String)
    (h : ∀ m ∈ models_to_try, cc m = none) :
    create_story_cache cc = (none, "gemini-2.5-flash") := by
  simp [create_story_cache, tryModels_all_fail cc models_to_try h]

/-! Helper lemmas about the max fold used by next_level. -/

theorem foldl_max_le (l : List Nat) :
    ∀ a : Nat, a ≤ l.foldl Nat.max a ∧ ∀ y ∈ l, y ≤ l.foldl Nat.max a := by
  induction l with
  | nil => intro a; simp
  | cons x xs ih =>
      intro a
      have h := ih (Nat.max a x)
      constructor
      · exact le_trans (Nat.le_max_left a x) h.1
      · intro y hy
        rcases List.mem_cons.mp hy with hy | hy
        · exact le_trans (hy ▸ Nat.le_max_right a x) h.1
        · exact h.2 y hy

theorem foldl_max_mem (l : List Nat) :
    ∀ a : Nat, l.foldl Nat.max a = a ∨ l.foldl Nat.max a ∈ l := by
  induction l with
  | nil => intro a; left; rfl
  | cons x xs ih =>
      intro a
      rcases ih (Nat.max a x) with h | h
      · by_cases hax : x ≤ a
        · left; simp only [List.foldl_cons]; rw [h]; exact Nat.max_eq_left hax
        · right; simp only [List.foldl_cons]; rw [h]
          have hmx : a.max x = x := Nat.max_eq_right (Nat.le_of_not_le hax)
          rw [hmx]
          exact List.mem_cons_self x xs
      · right
        exact List.mem_cons_of_mem x h

/-! Helper lemmas about traces and the main loop. -/

theorem savedBeforeImages_nil : savedBeforeImages [] := by
  intro k lvl br p hk
  simp at hk

theorem imageEvents_shape (lvl : Nat) (e : Entry) :
    ∀ ev ∈ imageEvents lvl e, ∃ br p, ev = Event.genImage lvl br p := by
  intro ev hev
  unfold imageEvents at hev
  rcases List.mem_append.mp hev with h | h
  · cases ha : e.choice_a with
    | none => rw [ha] at h; simp at h
    | some b =>
        rw [ha] at h
        simp only [List.mem_singleton] at h
        exact ⟨"A", _, h⟩
  · cases hb : e.choice_b with
    | none => rw [hb] at h; simp at h
    | some b =>
        rw [hb] at h
        simp only [List.mem_singleton] at h
        exact ⟨"B", _, h⟩

theorem savedBeforeImages_append (trace block : List Event)
    (h1 : savedBeforeImages trace)
    (h2 : ∀ (m : Nat) lvl br p, block[m]? = some (Event.genImage lvl br p) →
      ∃ (j : Nat) (d : List Entry), j < m ∧ block[j]? = some (Event.saveFile d) ∧
        ∃ e ∈ d, e.level = lvl) :
    savedBeforeImages (trace ++ block) := by
  intro k lvl br p hk
  by_cases hlt : k < trace.length
  · rw [List.getElem?_append, if_pos hlt] at hk
    obtain ⟨j, d, hj, hjget, he⟩ := h1 k lvl br p hk
    refine ⟨j, d, hj, ?_, he⟩
    rw [List.getElem?_append, if_pos (lt_trans hj hlt)]
    exact hjget
  · push_neg at hlt
    rw [List.getElem?_append_right hlt] at hk
    obtain ⟨j, d, hj, hjget, he⟩ := h2 (k - trace.length) lvl br p hk
    refine ⟨trace.length + j, d, by omega, ?_, he⟩
    rw [List.getElem?_append_right (by omega)]
    have hjj : trace.length + j - trace.length = j := by omega
    rw [hjj]
    exact hjget

theorem successBlock_ok (req : GenRequest) (d' : List Entry) (nl : Nat)
    (entry : Entry) (hmem : entry ∈ d') (hlevel : entry.level = nl) :
    ∀ (m : Nat) lvl br p,
      (Event.genText req :: Event.saveFile d' :: imageEvents nl entry)[m]? =
        some (Event.genImage lvl br p) →
      ∃ (j : Nat) (dd : List Entry), j < m ∧
        (Event.genText req :: Event.saveFile d' :: imageEvents nl entry)[j]? =
          some (Event.saveFile dd) ∧ ∃ e ∈ dd, e.level = lvl := by
  intro m lvl br p hm
  match m with
  | 0 => simp at hm
  | 1 => simp at hm
  | Nat.succ (Nat.succ m') =>
      have hm' : (imageEvents nl entry)[m']? = some (Event.genImage lvl br p) := by
        simpa using hm
      obtain ⟨hltm, hget⟩ := List.getElem?_eq_some.mp hm'
      have hmem2 := List.getElem_mem hltm
      rw [hget] at hmem2
      obtain ⟨br2, p2, heq⟩ := imageEvents_shape nl entry _ hmem2
      have hlvl : lvl = nl := by
        injection heq with h1 _ _
      refine ⟨1, d', by omega, by simp, entry, hmem, ?_⟩
      rw [hlevel, hlvl]

theorem failBlock_ok (req : GenRequest) (nl : Nat) :
    ∀ (m : Nat) lvl br p,
      ([Event.genText req, Event.skip nl])[m]? = some (Event.genImage lvl br p) →
      ∃ (j : Nat) (dd : List Entry), j < m ∧
        ([Event.genText req, Event.skip nl])[j]? = some (Event.saveFile dd) ∧
        ∃ e ∈ dd, e.level = lvl := by
  intro m lvl br p hm
  match m with
  | 0 => simp at hm
  | 1 => simp at hm
  | Nat.succ (Nat.succ m') => simp at hm

theorem mainLoopGo_saved (corpus : List String) (bible : List Chapter)
    (svc : GenRequest → Option Story) (rands : Nat → Nat → Nat)
    (cn : Option String) (mu : String) (limit : Int) :
    ∀ (fuel i nl pr : Nat) (data : List Entry) (file : Option (List Entry))
      (trace : List Event), savedBeforeImages trace →
      savedBeforeImages
        (mainLoopGo corpus bible svc rands cn mu limit fuel i nl pr data
          file trace).trace := by
  intro fuel
  induction fuel with
  | zero => intro i nl pr data file trace h; exact h
  | succ f ih =>
      intro i nl pr data file trace h
      simp only [mainLoopGo]
      split
      · split
        · exact h
        · split
          · exact h
          · split
            · rename_i st hst
              apply ih
              rw [List.append_assoc]
              apply savedBeforeImages_append _ _ h
              exact successBlock_ok _ _ _ _ (List.mem_append_right _ (List.mem_singleton.mpr rfl)) rfl
            · apply ih
              apply savedBeforeImages_append _ _ h
              exact failBlock_ok _ _
      · exact h

theorem mainLoopGo_mem_data (corpus : List String) (bible : List Chapter)
    (svc : GenRequest → Option Story) (rands : Nat → Nat → Nat)
    (cn : Option String) (mu : String) (limit : Int) :
    ∀ (fuel i nl pr : Nat) (data : List Entry) (file : Option (List Entry))
      (trace : List Event) (e : Entry), e ∈ data →
      e ∈ (mainLoopGo corpus bible svc rands cn mu limit fuel i nl pr data
        file trace).data := by
  intro fuel
  induction fuel with
  | zero => intro i nl pr data file trace e he; exact he
  | succ f ih =>
      intro i nl pr data file trace e he
      simp only [mainLoopGo]
      split
      · split
        · exact he
        · split
          · exact he
          · split
            · exact ih _ _ _ _ _ _ e (List.mem_append_left _ he)
            · exact ih _ _ _ _ _ _ e he
      · exact he

theorem mainLoopGo_inline (corpus : List String) (bible : List Chapter)
    (svc : GenRequest → Option Story) (rands : Nat → Nat → Nat)
    (cn : Option String) (mu : String) (limit : Int) :
    ∀ (fuel i nl pr : Nat) (data : List Entry) (file : Option (List Entry))
      (trace : List Event),
      (∀ req : GenRequest, Event.genText req ∈ trace → req.cached = cn) →
      ∀ req : GenRequest,
        Event.genText req ∈ (mainLoopGo corpus bible svc rands cn mu limit
          fuel i nl pr data file trace).trace →
        req.cached = cn := by
  intro fuel
  induction fuel with
  | zero => intro i nl pr data file trace h req hreq; exact h req hreq
  | succ f ih =>
      intro i nl pr data file trace h req
      simp only [mainLoopGo]
      split
      · split
        · exact h req
        · split
          · exact h req
          · split
            · rename_i st hst
              refine ih _ _ _ _ _ _ ?_ req
              intro r hr
              rcases List.mem_append.mp hr with hr | hr
              · rcases List.mem_append.mp hr with hr | hr
                · exact h r hr
                · rcases List.mem_cons.mp hr with hr | hr
                  · have : r = mkGenRequest nl ((corpus.drop i).take BATCH_SIZE)
                        (get_legacy_words (rands i) corpus i) cn mu bible := by
                      injection hr
                    rw [this]; rfl
                  · simp at hr
              · obtain ⟨br, p, heq⟩ := imageEvents_shape _ _ _ hr
                simp at heq
            · refine ih _ _ _ _ _ _ ?_ req
              intro r hr
              rcases List.mem_append.mp hr with hr | hr
              · exact h r hr
              · rcases List.mem_cons.mp hr with hr | hr
                · have : r = mkGenRequest nl ((corpus.drop i).take BATCH_SIZE)
                      (get_legacy_words (rands i) corpus i) cn mu bible := by
                    injection hr
                  rw [this]; rfl
                · simp at hr
      · exact h req

theorem mainLoopGo_target_slice (corpus : List String) (bible : List Chapter)
    (svc : GenRequest → Option Story) (rands : Nat → Nat → Nat)
    (cn : Option String) (mu : String) (limit : Int) (base : List Entry)
    (hsvc : ∀ req : GenRequest, (svc req).isSome) :
    ∀ (fuel i nl pr : Nat) (data : List Entry) (file : Option (List Entry))
      (trace : List Event),
      i = (nl - 1) * BATCH_SIZE → 1 ≤ nl →
      (∀ e ∈ data, e ∈ base ∨
        e.target_words =
          (corpus.drop ((e.level - 1) * BATCH_SIZE)).take BATCH_SIZE) →
      ∀ e ∈ (mainLoopGo corpus bible svc rands cn mu limit fuel i nl pr data
        file trace).data,
        e ∈ base ∨
        e.target_words =
          (corpus.drop ((e.level - 1) * BATCH_SIZE)).take BATCH_SIZE := by
  intro fuel
  induction fuel with
  | zero => intro i nl pr data file trace _ _ hdata; exact hdata
  | succ f ih =>
      intro i nl pr data file trace hi hnl hdata
      simp only [mainLoopGo]
      split
      · split
        · exact hdata
        · split
          · exact hdata
          · split
            · rename_i st hst
              apply ih
              · have hb : BATCH_SIZE = 10 := rfl
                rw [hb] at hi ⊢
                omega
              · omega
              · intro e he
                rcases List.mem_append.mp he with he | he
                · exact hdata e he
                · right
                  rw [List.mem_singleton] at he
                  subst he
                  simp only []
                  rw [← hi]
            · rename_i hst
              have hs := hsvc (mkGenRequest nl ((corpus.drop i).take BATCH_SIZE)
                (get_legacy_words (rands i) corpus i) cn mu bible)
              rw [hst] at hs
              simp at hs
      · exact hdata

theorem mainLoopGo_legacy_len (corpus : List String) (bible : List Chapter)
    (svc : GenRequest → Option Story) (rands : Nat → Nat → Nat)
    (cn : Option String) (mu : String) (limit : Int) (base : List Entry) :
    ∀ (fuel i nl pr : Nat) (data : List Entry) (file : Option (List Entry))
      (trace : List Event),
      (∀ e ∈ data, e ∈ base ∨ e.legacy_words.length = 0 ∨
        e.legacy_words.length = LEGACY_POOL_SIZE) →
      ∀ e ∈ (mainLoopGo corpus bible svc rands cn mu limit fuel i nl pr data
        file trace).data,
        e ∈ base ∨ e.legacy_words.length = 0 ∨
        e.legacy_words.length = LEGACY_POOL_SIZE := by
  intro fuel
  induction fuel with
  | zero => intro i nl pr data file trace hdata; exact hdata
  | succ f ih =>
      intro i nl pr data file trace hdata
      simp only [mainLoopGo]
      split
      · rename_i hilt
        split
        · exact hdata
        · split
          · exact hdata
          · split
            · rename_i st hst
              apply ih
              intro e he
              rcases List.mem_append.mp he with he | he
              · exact hdata e he
              · right
                rw [List.mem_singleton] at he
                subst he
                simp only []
                by_cases hlt : i < BATCH_SIZE
                · left; rw [get_legacy_words_small _ _ _ hlt]; rfl
                · right
                  exact get_legacy_words_full _ _ _ (Nat.le_of_not_lt hlt)
                    (Nat.le_of_lt hilt)
            · exact ih _ _ _ _ _ _ hdata
      · exact hdata

theorem mainLoopGo_commits (corpus : List String) (bible : List Chapter)
    (svc : GenRequest → Option Story) (rands : Nat → Nat → Nat)
    (mu : String) (limit : Int)
    (hsvc : ∀ req : GenRequest, req.cached = none → (svc req).isSome) :
    ∀ (f i nl pr : Nat) (data : List Entry) (file : Option (List Entry))
      (trace : List Event), i < corpus.length → (pr : Int) < limit →
      (mainLoopGo corpus bible svc rands none mu limit (f + 1) i nl pr data
        file trace).data ≠ [] := by
  intro f i nl pr data file trace hi hpr
  have hnb : ¬ ((corpus.drop i).take BATCH_SIZE).isEmpty = true := by
    intro hemp
    have hnil := List.isEmpty_iff.mp hemp
    have hlen : ((corpus.drop i).take BATCH_SIZE).length = 0 := by rw [hnil]; rfl
    rw [List.length_take, List.length_drop] at hlen
    have hb : BATCH_SIZE = 10 := rfl
    omega
  obtain ⟨st, hst⟩ := Option.isSome_iff_exists.mp
    (hsvc (mkGenRequest nl ((corpus.drop i).take BATCH_SIZE)
      (get_legacy_words (rands i) corpus i) none mu bible) rfl)
  simp only [mainLoopGo]
  rw [if_pos hi, if_neg (not_le.mpr hpr), if_neg hnb]
  simp only [hst]
  exact List.ne_nil_of_mem
    (mainLoopGo_mem_data _ _ _ _ _ _ _ _ _ _ _ _ _ _ _
      (List.mem_append_right _ (List.mem_singleton.mpr rfl)))

theorem compute_next_level_pos (data : List Entry) (sb : Int) :
    1 ≤ compute_next_level data sb := by
  simp only [compute_next_level]
  split
  · rename_i hsb
    omega
  · split <;> omega

/-! Concrete fixtures for counterexamples and witnesses. -/

/-- Concrete twenty-word corpus used for concrete runs. -/
def corpusTwenty : List String :=
  ["w0", "w1", "w2", "w3", "w4", "w5", "w6", "w7", "w8", "w9",
   "w10", "w11", "w12", "w13", "w14", "w15", "w16", "w17", "w18", "w19"]

/-- Concrete three-word corpus. -/
def corpusThree : List String := ["a", "b", "c"]

/-- Concrete one-chapter narrative bible. -/
def bibleOne : List Chapter := [⟨some "Leipzig", some "calm", none⟩]

/-- A branch whose three sentence lists all have length one. -/
def branchOk : Branch := ⟨some "A", some ["s1"], some ["s2"], some ["s3"], some "imgA"⟩

/-- A branch with mismatched sentence-list lengths (2, 1, 1). -/
def branchBad : Branch :=
  ⟨some "A", some ["a1", "a2"], some ["b1"], some ["c1"], some "imgA"⟩

/-- A well-formed story. -/
def storyOk : Story := ⟨some branchOk, some branchOk⟩

/-- A story whose first branch violates the equal-length invariant. -/
def storyBad : Story := ⟨some branchBad, some branchOk⟩

/-- A generation service that always succeeds with a well-formed story. -/
def svcAlwaysOk : GenRequest → Option Story := fun _ => some storyOk

/-- A generation service that fails exactly on the request for the first
corpus batch (recognised by its first target word) and succeeds after. -/
def svcFailFirst : GenRequest → Option Story := fun req =>
  if req.words.take 1 = ["w0"] then none else some storyOk

/-- A generation service that always returns the invariant-violating story. -/
def svcBad : GenRequest → Option Story := fun _ => some storyBad

/-- A cache-creation service that fails for every model. -/
def cacheNever : String → Option String := fun _ => none

/-- The all-zeroes random stream family. -/
def randZero : Nat → Nat → Nat := fun _ _ => 0

/-! Claim theorems. -/

/-- C3: in every run, every image-generation call for a level is preceded
in the event trace by a full rewrite of the persisted manifest whose
contents already include that level, so a crash during image fetch never
loses committed text content. -/
theorem C3_persist_before_images (corpus : List String) (bible : List Chapter)
    (svc : GenRequest → Option Story) (cacheCreate : String → Option String)
    (rands : Nat → Nat → Nat) (limit start_batch : Int) (fs : FileState) :
    savedBeforeImages (main_run corpus bible svc cacheCreate rands limit
      start_batch fs).trace := by
  by_cases hb : bible.isEmpty = true
  · unfold main_run
    rw [if_pos hb]
    intro k lvl br p hk
    cases k with
    | zero => simp at hk
    | succ k2 => simp at hk
  · unfold main_run
    rw [if_neg hb]
    exact mainLoopGo_saved _ _ _ _ _ _ _ _ _ _ _ _ _ _ savedBeforeImages_nil

/-- C4: an iteration whose text generation fails leaves the in-memory
manifest and the persisted file exactly unchanged: the only observable
events are the generation attempt and the skip log, with no append and no
file write. -/
theorem C4_failed_generation_no_commit (corpus : List String)
    (bible : List Chapter) (svc : GenRequest → Option Story)
    (rands : Nat → Nat → Nat) (cn : Option String) (mu : String)
    (limit : Int) (i nl pr : Nat) (data : List Entry)
    (file : Option (List Entry)) (trace : List Event)
    (hi : i < corpus.length) (hpr : (pr : Int) < limit)
    (hfail : svc (mkGenRequest nl ((corpus.drop i).take BATCH_SIZE)
      (get_legacy_words (rands i) corpus i) cn mu bible) = none) :
    mainLoopGo corpus bible svc rands cn mu limit 1 i nl pr data file trace =
      ⟨data, file, trace ++ [Event.genText (mkGenRequest nl
        ((corpus.drop i).take BATCH_SIZE) (get_legacy_words (rands i) corpus i)
        cn mu bible), Event.skip nl]⟩ := by
  have hnb : ¬ ((corpus.drop i).take BATCH_SIZE).isEmpty = true := by
    intro hemp
    have hnil := List.isEmpty_iff.mp hemp
    have hlen : ((corpus.drop i).take BATCH_SIZE).length = 0 := by rw [hnil]; rfl
    rw [List.length_take, List.length_drop] at hlen
    have hb : BATCH_SIZE = 10 := rfl
    omega
  simp only [mainLoopGo]
  rw [if_pos hi, if_neg (not_le.mpr hpr), if_neg hnb]
  simp only [hfail]

/-- Witness for C4 at a concrete failed first iteration. -/
theorem C4_witness :
    (0 < corpusTwenty.length ∧ ((0 : Nat) : Int) < 1 ∧
      svcFailFirst (mkGenRequest 1 ((corpusTwenty.drop 0).take BATCH_SIZE)
        (get_legacy_words (randZero 0) corpusTwenty 0) none "gemini-2.5-flash"
        bibleOne) = none) ∧
    mainLoopGo corpusTwenty bibleOne svcFailFirst randZero none
      "gemini-2.5-flash" 1 1 0 1 0 [] none [] =
      ⟨[], none, [Event.genText (mkGenRequest 1
        ((corpusTwenty.drop 0).take BATCH_SIZE)
        (get_legacy_words (randZero 0) corpusTwenty 0) none "gemini-2.5-flash"
        bibleOne), Event.skip 1]⟩ :=
  ⟨⟨by decide, by decide, by decide⟩,
   C4_failed_generation_no_commit corpusTwenty bibleOne svcFailFirst randZero
     none "gemini-2.5-flash" 1 0 1 0 [] none [] (by decide) (by decide)
     (by decide)⟩

/-- C8 counterexample: on a corrupt manifest file the loader prints no log
line at all (the bare except handler body is only the reset to empty), and
a concrete run over a corrupt file is observationally identical, event for
event, to the same run over a valid empty file: nothing in the observable
behaviour records the corruption, refuting the claimed logging. -/
theorem C8_counterexample :
    (load_current_data_trace FileState.corrupt).2 = [] ∧
    main_run corpusTwenty bibleOne svcAlwaysOk cacheNever randZero 1 0
      FileState.corrupt =
      main_run corpusTwenty bibleOne svcAlwaysOk cacheNever randZero 1 0
        (FileState.valid []) :=
  ⟨rfl, rfl⟩

/-- C8 (amended): a missing manifest file loads as the empty manifest and
a corrupt one loads as the empty manifest, silently — the loader emits no
log line in any case — and in both cases the whole run behaves exactly as
if the persisted file held an empty manifest (no crash). -/
theorem C8_amended_silent_recovery (corpus : List String)
    (bible : List Chapter) (svc : GenRequest → Option Story)
    (cacheCreate : String → Option String) (rands : Nat → Nat → Nat)
    (limit start_batch : Int) :
    load_current_data FileState.missing = [] ∧
    load_current_data FileState.corrupt = [] ∧
    (∀ fs : FileState, (load_current_data_trace fs).1 = load_current_data fs) ∧
    (∀ fs : FileState, (load_current_data_trace fs).2 = []) ∧
    main_run corpus bible svc cacheCreate rands limit start_batch
      FileState.missing =
      main_run corpus bible svc cacheCreate rands limit start_batch
        (FileState.valid []) ∧
    main_run corpus bible svc cacheCreate rands limit start_batch
      FileState.corrupt =
      main_run corpus bible svc cacheCreate rands limit start_batch
        (FileState.valid []) :=
  ⟨rfl, rfl, fun fs => by cases fs <;> rfl, fun fs => by cases fs <;> rfl,
   rfl, rfl⟩

/-- C9: for a nonempty chapter list the generation request carries the
chapter at index (level-1) mod len as current location and vibe and the
chapter at index level mod len as destination; with an empty chapter list
the run stops at once with only the configuration error, before any
generation call. -/
theorem C9_chapter_indexing (bible : List Chapter) (level : Nat)
    (new_words legacy_words : List String) (cache_name : Option String)
    (model_name : String) (hb : bible ≠ []) :
    ((mkGenRequest level new_words legacy_words cache_name model_name
        bible).location =
      (bible.get ⟨(level - 1) % bible.length,
        Nat.mod_lt _ (List.length_pos.mpr hb)⟩).location.getD "Unknown" ∧
     (mkGenRequest level new_words legacy_words cache_name model_name
        bible).vibe =
      (bible.get ⟨(level - 1) % bible.length,
        Nat.mod_lt _ (List.length_pos.mpr hb)⟩).vibe.getD "Normal" ∧
     (mkGenRequest level new_words legacy_words cache_name model_name
        bible).destination =
      (bible.get ⟨level % bible.length,
        Nat.mod_lt _ (List.length_pos.mpr hb)⟩).location.getD "Unknown") ∧
    ∀ (corpus : List String) (svc : GenRequest → Option Story)
      (cacheCreate : String → Option String) (rands : Nat → Nat → Nat)
      (limit start_batch : Int) (fs : FileState),
      main_run corpus [] svc cacheCreate rands limit start_batch fs =
        ⟨[], none, [Event.configError]⟩ := by
  have hlen := List.length_pos.mpr hb
  have h1 : (level - 1) % bible.length < bible.length := Nat.mod_lt _ hlen
  have h2 : level % bible.length < bible.length := Nat.mod_lt _ hlen
  refine ⟨⟨?_, ?_, ?_⟩, ?_⟩
  · simp only [mkGenRequest, List.getD_eq_getElem _ _ h1, List.get_eq_getElem]
  · simp only [mkGenRequest, List.getD_eq_getElem _ _ h1, List.get_eq_getElem]
  · simp only [mkGenRequest, List.getD_eq_getElem _ _ h2, List.get_eq_getElem]
  · intro corpus svc cacheCreate rands limit start_batch fs
    rfl

/-- Witness for C9 at a concrete one-chapter bible and level 3. -/
theorem C9_witness :
    bibleOne ≠ [] ∧
    ((mkGenRequest 3 ["x"] [] none "m" bibleOne).location =
      (bibleOne.get ⟨(3 - 1) % bibleOne.length,
        Nat.mod_lt _ (List.length_pos.mpr (by decide))⟩).location.getD
        "Unknown" ∧
     (mkGenRequest 3 ["x"] [] none "m" bibleOne).vibe =
      (bibleOne.get ⟨(3 - 1) % bibleOne.length,
        Nat.mod_lt _ (List.length_pos.mpr (by decide))⟩).vibe.getD "Normal" ∧
     (mkGenRequest 3 ["x"] [] none "m" bibleOne).destination =
      (bibleOne.get ⟨3 % bibleOne.length,
        Nat.mod_lt _ (List.length_pos.mpr (by decide))⟩).location.getD
        "Unknown") ∧
    ∀ (corpus : List String) (svc : GenRequest → Option Story)
      (cacheCreate : String → Option String) (rands : Nat → Nat → Nat)
      (limit start_batch : Int) (fs : FileState),
      main_run corpus [] svc cacheCreate rands limit start_batch fs =
        ⟨[], none, [Event.configError]⟩ :=
  ⟨by decide, C9_chapter_indexing bibleOne 3 ["x"] [] none "m" (by decide)⟩

/-- Entry fixture with level 1. -/
def entryL1 : Entry := ⟨1, [], [], none, none⟩

/-- Entry fixture with level 2. -/
def entryL2 : Entry := ⟨2, [], [], none, none⟩

/-- C5: the next level number is the positive start-batch override when
given; otherwise one more than the maximum committed level number of a
nonempty manifest; otherwise 1 (so after commits up to level N a resumed
run starts at N+1). -/
theorem C5_next_level (data : List Entry) (sb : Int) :
    (sb > 0 → compute_next_level data sb = sb.toNat) ∧
    (¬ sb > 0 → data = [] → compute_next_level data sb = 1) ∧
    (¬ sb > 0 → data ≠ [] →
      ∃ e ∈ data, compute_next_level data sb = e.level + 1 ∧
        ∀ e2 ∈ data, e2.level ≤ e.level) := by
  refine ⟨?_, ?_, ?_⟩
  · intro h; simp [compute_next_level, h]
  · intro h hd; subst hd; simp [compute_next_level, h]
  · intro h hd
    have hne : ¬ data.isEmpty = true := by
      simpa [List.isEmpty_iff] using hd
    have hcnl : compute_next_level data sb =
        ((data.map Entry.level).foldl Nat.max 0) + 1 := by
      simp [compute_next_level, h, hne]
    have hle := (foldl_max_le (data.map Entry.level) 0).2
    rcases foldl_max_mem (data.map Entry.level) 0 with hm | hm
    · obtain ⟨e0, he0⟩ := List.exists_mem_of_ne_nil data hd
      refine ⟨e0, he0, ?_, ?_⟩
      · have hb0 := hle e0.level (List.mem_map_of_mem Entry.level he0)
        rw [hcnl]
        omega
      · intro e2 he2
        have hb0 := hle e0.level (List.mem_map_of_mem Entry.level he0)
        have hb2 := hle e2.level (List.mem_map_of_mem Entry.level he2)
        omega
    · obtain ⟨e, he, heq⟩ := List.mem_map.mp hm
      refine ⟨e, he, ?_, ?_⟩
      · rw [hcnl, heq]
      · intro e2 he2
        have hb2 := hle e2.level (List.mem_map_of_mem Entry.level he2)
        rw [heq]
        exact hb2

/-- Witness for C5 on a two-entry manifest with maximum level 2 and no
override: the next level is 3. -/
theorem C5_witness :
    ¬ (0 : Int) > 0 ∧ ([entryL1, entryL2] : List Entry) ≠ [] ∧
    ∃ e ∈ [entryL1, entryL2],
      compute_next_level [entryL1, entryL2] 0 = e.level + 1 ∧
      ∀ e2 ∈ [entryL1, entryL2], e2.level ≤ e.level :=
  ⟨by decide, by decide,
   (C5_next_level [entryL1, entryL2] 0).2.2 (by decide) (by decide)⟩

/-- C6 counterexample: with a three-word corpus and window start index 10
the code returns a sample of size 3 (the whole prior pool), not
min(LEGACY_POOL_SIZE, 10) = 5 as the claim states for every corpus and
index. -/
theorem C6_counterexample :
    (get_legacy_words (randZero 0) corpusThree 10).length = 3 ∧
    min LEGACY_POOL_SIZE 10 = 5 ∧
    (get_legacy_words (randZero 0) corpusThree 10).length ≠
      min LEGACY_POOL_SIZE 10 := by
  refine ⟨?_, rfl, ?_⟩ <;> decide

/-- C6 (amended): legacy-word selection returns the empty sequence below
BATCH_SIZE; otherwise a without-replacement sample (no duplicates for a
duplicate-free corpus) of size min(LEGACY_POOL_SIZE, len(corpus[0:index]))
drawn from corpus[0:index], so every returned word was introduced
strictly before the current level. -/
theorem C6_amended_legacy_words (rand : Nat → Nat) (corpus : List String)
    (idx : Nat) (hnd : corpus.Nodup) :
    (idx < BATCH_SIZE → get_legacy_words rand corpus idx = []) ∧
    (BATCH_SIZE ≤ idx →
      (get_legacy_words rand corpus idx).length =
        min LEGACY_POOL_SIZE (corpus.take idx).length ∧
      (get_legacy_words rand corpus idx).Nodup ∧
      ∀ w ∈ get_legacy_words rand corpus idx, w ∈ corpus.take idx) := by
  refine ⟨fun h => get_legacy_words_small _ _ _ h, fun h => ⟨?_, ?_, ?_⟩⟩
  · exact get_legacy_words_length _ _ _ (by omega)
  · exact get_legacy_words_nodup _ _ _ hnd
  · exact fun w hw => get_legacy_words_mem _ _ _ _ hw

/-- Witness for C6 (amended) on the twenty-word corpus at index 11. -/
theorem C6_amended_witness :
    corpusTwenty.Nodup ∧
    ((11 < BATCH_SIZE → get_legacy_words (randZero 0) corpusTwenty 11 = []) ∧
     (BATCH_SIZE ≤ 11 →
       (get_legacy_words (randZero 0) corpusTwenty 11).length =
         min LEGACY_POOL_SIZE (corpusTwenty.take 11).length ∧
       (get_legacy_words (randZero 0) corpusTwenty 11).Nodup ∧
       ∀ w ∈ get_legacy_words (randZero 0) corpusTwenty 11,
         w ∈ corpusTwenty.take 11)) :=
  ⟨by decide,
   C6_amended_legacy_words (randZero 0) corpusTwenty 11 (by decide)⟩

/-- Unfolding equation for main_run past the nonempty-bible guard. -/
theorem main_run_unfold (corpus : List String) (bible : List Chapter)
    (svc : GenRequest → Option Story) (cacheCreate : String → Option String)
    (rands : Nat → Nat → Nat) (limit start_batch : Int) (fs : FileState)
    (hb : ¬ bible.isEmpty = true) :
    main_run corpus bible svc cacheCreate rands limit start_batch fs =
      mainLoopGo corpus bible svc rands (create_story_cache cacheCreate).1
        (create_story_cache cacheCreate).2 limit (corpus.length + 1)
        ((compute_next_level (load_current_data fs) start_batch - 1) *
          BATCH_SIZE)
        (compute_next_level (load_current_data fs) start_batch) 0
        (load_current_data fs) none [] := by
  unfold main_run
  rw [if_neg hb]

/-- C1 counterexample: with a twenty-word corpus, a one-chapter bible and
a service that fails on the first batch and succeeds on the second, the
run commits level 1 with target_words equal to corpus[10:20] instead of
corpus[0:10]: a failed attempt advances the corpus window without
advancing the level number. -/
theorem C1_counterexample :
    ∃ e ∈ (main_run corpusTwenty bibleOne svcFailFirst cacheNever randZero 2 0
      FileState.missing).data,
      e.level = 1 ∧
      e.target_words ≠
        (corpusTwenty.drop ((1 - 1) * BATCH_SIZE)).take BATCH_SIZE := by
  decide

/-- C1 (amended): in a run in which no generation attempt fails, every
level the driver commits beyond the preloaded manifest has target_words
equal to the corpus slice [(N-1)*BATCH_SIZE, N*BATCH_SIZE) for its level
number N. -/
theorem C1_amended_target_slice (corpus : List String) (bible : List Chapter)
    (svc : GenRequest → Option Story) (cacheCreate : String → Option String)
    (rands : Nat → Nat → Nat) (limit start_batch : Int) (fs : FileState)
    (hsvc : ∀ req : GenRequest, (svc req).isSome) :
    ∀ e ∈ (main_run corpus bible svc cacheCreate rands limit start_batch
      fs).data,
      e ∈ load_current_data fs ∨
      e.target_words =
        (corpus.drop ((e.level - 1) * BATCH_SIZE)).take BATCH_SIZE := by
  intro e he
  by_cases hb : bible.isEmpty = true
  · unfold main_run at he
    rw [if_pos hb] at he
    simp at he
  · rw [main_run_unfold _ _ _ _ _ _ _ _ hb] at he
    exact mainLoopGo_target_slice _ _ _ _ _ _ _ _ hsvc _ _ _ _ _ _ _ rfl
      (compute_next_level_pos _ _) (fun e2 he2 => Or.inl he2) e he

/-- Witness for C1 (amended) on an all-success concrete run. -/
theorem C1_amended_witness :
    (∀ req : GenRequest, (svcAlwaysOk req).isSome) ∧
    ∀ e ∈ (main_run corpusTwenty bibleOne svcAlwaysOk cacheNever randZero 2 0
      FileState.missing).data,
      e ∈ load_current_data FileState.missing ∨
      e.target_words =
        (corpusTwenty.drop ((e.level - 1) * BATCH_SIZE)).take BATCH_SIZE :=
  ⟨fun _ => rfl,
   C1_amended_target_slice corpusTwenty bibleOne svcAlwaysOk cacheNever
     randZero 2 0 FileState.missing (fun _ => rfl)⟩

/-- C2: the driver performs no validation of the parsed story, so a
response whose first branch has sentence lists of lengths 2, 1, 1 is
committed to the manifest unchanged: the run appends exactly that
invariant-violating level instead of treating it as a generation
failure. -/
theorem C2_bad_level_committed :
    (main_run corpusTwenty bibleOne svcBad cacheNever randZero 1 0
      FileState.missing).data =
      [⟨1, corpusTwenty.take 10, [], some branchBad, some branchOk⟩] ∧
    entry_valid ⟨1, corpusTwenty.take 10, [], some branchBad, some branchOk⟩ =
      false := by
  refine ⟨by decide, by decide⟩

/-- C7: when cache creation fails for every candidate model, the fallback
chain returns no handle plus the concrete model gemini-2.5-flash, every
generation request of the run is sent without a cached-content binding,
and the pipeline still commits a level. -/
theorem C7_cache_fallback (corpus : List String) (bible : List Chapter)
    (svc : GenRequest → Option Story) (cacheCreate : String → Option String)
    (rands : Nat → Nat → Nat) (limit : Int)
    (hall : ∀ m ∈ models_to_try, cacheCreate m = none)
    (hsvc : ∀ req : GenRequest, req.cached = none → (svc req).isSome)
    (hc : corpus ≠ []) (hb : ¬ bible.isEmpty = true) (hl : 1 ≤ limit) :
    create_story_cache cacheCreate = (none, "gemini-2.5-flash") ∧
    (∀ req : GenRequest, Event.genText req ∈
      (main_run corpus bible svc cacheCreate rands limit 0
        FileState.missing).trace →
      req.cached = none) ∧
    (main_run corpus bible svc cacheCreate rands limit 0
      FileState.missing).data ≠ [] := by
  have hcs := create_story_cache_all_fail cacheCreate hall
  refine ⟨hcs, ?_, ?_⟩
  · intro req hreq
    rw [main_run_unfold _ _ _ _ _ _ _ _ hb, hcs] at hreq
    exact mainLoopGo_inline _ _ _ _ _ _ _ _ _ _ _ _ _ _
      (fun r hr => absurd hr (List.not_mem_nil _)) req hreq
  · rw [main_run_unfold _ _ _ _ _ _ _ _ hb, hcs]
    exact mainLoopGo_commits _ _ _ _ _ _ hsvc corpus.length _ _ _ _ _ _
      (List.length_pos.mpr hc) (by omega)

/-- Witness for C7 on a concrete run with an always-failing cache service. -/
theorem C7_witness :
    (∀ m ∈ models_to_try, cacheNever m = none) ∧
    (∀ req : GenRequest, req.cached = none → (svcAlwaysOk req).isSome) ∧
    corpusTwenty ≠ [] ∧ ¬ bibleOne.isEmpty = true ∧ (1 : Int) ≤ 1 ∧
    (create_story_cache cacheNever = (none, "gemini-2.5-flash") ∧
     (∀ req : GenRequest, Event.genText req ∈
       (main_run corpusTwenty bibleOne svcAlwaysOk cacheNever randZero 1 0
         FileState.missing).trace →
       req.cached = none) ∧
     (main_run corpusTwenty bibleOne svcAlwaysOk cacheNever randZero 1 0
       FileState.missing).data ≠ []) :=
  ⟨fun _ _ => rfl, fun _ _ => rfl, by decide, by decide, le_refl 1,
   C7_cache_fallback corpusTwenty bibleOne svcAlwaysOk cacheNever randZero 1
     (fun _ _ => rfl) (fun _ _ => rfl) (by decide) (by decide) (le_refl 1)⟩

/-- C10: whenever the window start index is at least BATCH_SIZE and within
the corpus (as the driver guarantees), the legacy sample has exactly
LEGACY_POOL_SIZE entries; consequently every level the driver commits has
a legacy-word count of exactly 0 or exactly LEGACY_POOL_SIZE. -/
theorem C10_legacy_count (corpus : List String) (bible : List Chapter)
    (svc : GenRequest → Option Story) (cacheCreate : String → Option String)
    (rands : Nat → Nat → Nat) (limit start_batch : Int) (fs : FileState)
    (rand : Nat → Nat) (idx : Nat)
    (h1 : BATCH_SIZE ≤ idx) (h2 : idx ≤ corpus.length) :
    (get_legacy_words rand corpus idx).length = LEGACY_POOL_SIZE ∧
    ∀ e ∈ (main_run corpus bible svc cacheCreate rands limit start_batch
      fs).data,
      e ∈ load_current_data fs ∨ e.legacy_words.length = 0 ∨
      e.legacy_words.length = LEGACY_POOL_SIZE := by
  refine ⟨get_legacy_words_full _ _ _ h1 h2, ?_⟩
  intro e he
  by_cases hb : bible.isEmpty = true
  · unfold main_run at he
    rw [if_pos hb] at he
    simp at he
  · rw [main_run_unfold _ _ _ _ _ _ _ _ hb] at he
    exact mainLoopGo_legacy_len _ _ _ _ _ _ _ _ _ _ _ _ _ _ _
      (fun e2 he2 => Or.inl he2) e he

/-- Witness for C10 at index 10 of the twenty-word corpus and a concrete
two-level run. -/
theorem C10_witness :
    BATCH_SIZE ≤ 10 ∧ 10 ≤ corpusTwenty.length ∧
    ((get_legacy_words (randZero 1) corpusTwenty 10).length =
      LEGACY_POOL_SIZE ∧
     ∀ e ∈ (main_run corpusTwenty bibleOne svcAlwaysOk cacheNever randZero 2 0
       FileState.missing).data,
       e ∈ load_current_data FileState.missing ∨ e.legacy_words.length = 0 ∨
       e.legacy_words.length = LEGACY_POOL_SIZE) :=
  ⟨by decide, by decide,
   C10_legacy_count corpusTwenty bibleOne svcAlwaysOk cacheNever randZero 2 0
     FileState.missing (randZero 1) 10 (by decide) (by decide)⟩

end CF
